import Mathlib

/-!
Verification of the NEGradient-GenePriority repository.

The development shallowly embeds the Python sources:

* `preprocessing/side_information_loader.py` — the `SideInformationLoader`
  class: `to_coo`, `add_implicit_ones` and `__call__`;
* `postprocessing/dataframes.py` — `generate_auc_loss_table` and
  `generate_bedroc_table`;
* `evaluation/evaluation.py` — the `Evaluation` class: `__init__`,
  `compute_bedroc_scores` and `compute_avg_auc_loss`.

Numbers held in dataframes and numpy arrays are modelled as rationals (`ℚ`);
the BEDROC score, which uses transcendental functions, lives in `ℝ`.
Floating-point library primitives that the claims never inspect pointwise
(the square root inside `np.std`, the `"{x:.2e}"` cell formatter) are passed
as explicit function parameters.  Library calls are modelled by their
documented semantics: numpy expressions written in the repository's own
code (`mat[:, 2]`, `mat[:, 1].max()`) keep their documented error
behaviour (`IndexError`, `ValueError` on a zero-size reduction), while the
scipy constructors the spec excludes are plain record constructors.

A pandas `DataFrame` is modelled column-major: a list of named columns, each
a list of rationals.  Mutation of a dataframe in place (`add_implicit_ones`)
is modelled with an explicit heap of dataframes addressed by indices.
-/

/-- PDataFrame models a pandas `DataFrame` column-major: each entry of
`cols` is a column name paired with the column's values, top to bottom. -/
structure PDataFrame where
  cols : List (String × List ℚ)
deriving DecidableEq

instance : Inhabited PDataFrame := ⟨⟨[]⟩⟩

/-- Number of columns, `dataframe.shape[1]` in pandas. -/
def PDataFrame.nCols (df : PDataFrame) : ℕ := df.cols.length

/-- Number of rows, `len(dataframe)` / `dataframe.shape[0]` in pandas
(the length of the first column; `0` for a dataframe with no columns). -/
def PDataFrame.nRows (df : PDataFrame) : ℕ := (df.cols.headD ("", [])).2.length

/-- Wellformedness: every column holds one value per row. -/
def PDataFrame.wf (df : PDataFrame) : Prop :=
  ∀ c ∈ df.cols, c.2.length = df.nRows

instance (df : PDataFrame) : Decidable df.wf := by
  unfold PDataFrame.wf; infer_instance

/-- Column `j` of the numpy rendering `dataframe.to_numpy()`: the values of
the `j`-th column (`mat[:, j]`). -/
def PDataFrame.npCol (df : PDataFrame) (j : ℕ) : List ℚ :=
  (df.cols.getD j ("", [])).2

/-- Row `k` of the dataframe, as the list of its cells left to right. -/
def PDataFrame.rowAt (df : PDataFrame) (k : ℕ) : List ℚ :=
  df.cols.map (fun c => c.2.getD k 0)

/-- Column assignment `dataframe[name] = vals`, with pandas' documented
semantics: an existing column of that name is overwritten in place,
otherwise a new column is appended on the right. -/
def PDataFrame.assign (df : PDataFrame) (name : String) (vals : List ℚ) :
    PDataFrame :=
  if (df.cols.map Prod.fst).contains name then
    ⟨df.cols.map (fun c => if c.1 = name then (name, vals) else c)⟩
  else
    ⟨df.cols ++ [(name, vals)]⟩

/-- Maximum of a nonempty numpy 1-D array.  This total helper underlies
`npMaxE` below, which models `arr.max()` including its `ValueError` on a
zero-size array; the default `0` here is never reached through
`npMaxE`. -/
def npMax (l : List ℚ) : ℚ := l.foldl max (l.headD 0)

/-- Truncation `int(q)` of Python: toward zero. -/
def pyInt (q : ℚ) : ℤ := if 0 ≤ q then ⌊q⌋ else -⌊-q⌋

/-- CooMatrix models a `scipy.sparse.coo_matrix`: three parallel arrays of
stored row indices, column indices and values, plus the matrix shape. -/
structure CooMatrix where
  data : List ℚ
  row : List ℚ
  col : List ℚ
  shape : ℤ × ℤ
deriving DecidableEq

instance : Inhabited CooMatrix := ⟨⟨[], [], [], (0, 0)⟩⟩

/-- Errors signalled by the embedded Python code and the numpy operations
it invokes. -/
inductive PyErr where
  | valueError
  | typeError
  | indexError
deriving DecidableEq

/-- Maximum `arr.max()` of a numpy 1-D array: on a zero-size array numpy
raises `ValueError` (zero-size reduction), otherwise it yields the
maximum. -/
def npMaxE (l : List ℚ) : Except PyErr ℚ :=
  if l = [] then .error .valueError else .ok (npMax l)

/-- SideInformationLoader.to_coo:

```python
mat = dataframe.to_numpy()
return sp.coo_matrix(
    (mat[:, 2], (mat[:, 0], mat[:, 1])),
    shape=(rows + 1, int(mat[:, 1].max()) + 1),
)
```

The numpy expressions of this repository code can themselves raise: with
fewer than three columns `mat[:, 2]` raises `IndexError`, and with zero
rows `mat[:, 1].max()` raises `ValueError` (via `npMaxE`).  The
`sp.coo_matrix` constructor itself is the scipy plumbing the spec
excludes; it is modelled as a plain record constructor. -/
def SideInformationLoader.to_coo (dataframe : PDataFrame) (rows : ℕ) :
    Except PyErr CooMatrix :=
  if dataframe.nCols < 3 then .error .indexError
  else
    (npMaxE (dataframe.npCol 1)).map (fun mx =>
      { data := dataframe.npCol 2
        row := dataframe.npCol 0
        col := dataframe.npCol 1
        shape := ((rows : ℤ) + 1, pyInt mx + 1) })

/-- Value-level effect of `SideInformationLoader.add_implicit_ones`:

```python
dataframe[implicit_1s_name] = np.ones(len(dataframe))
return dataframe
```

`np.ones(len(dataframe))` is a vector of `1.0` of length the number of
rows. -/
def addImplicitOnesVal (dataframe : PDataFrame) (implicit_1s_name : String) :
    PDataFrame :=
  dataframe.assign implicit_1s_name (List.replicate dataframe.nRows 1)

/-- Heap of dataframe objects; a Python variable holding a dataframe is an
index into the heap. -/
def DfHeap := List PDataFrame

/-- SideInformationLoader.add_implicit_ones as a heap transformer: the
dataframe object at `ref` is mutated in place and the function returns the
very reference it was given. -/
def SideInformationLoader.add_implicit_ones (heap : DfHeap) (ref : ℕ)
    (implicit_1s_name : String) : DfHeap × ℕ :=
  (List.set heap ref (addImplicitOnesVal (heap.getD ref default)
    implicit_1s_name), ref)

/-- SideInformationLoader.__call__, the per-dataframe loop:

```python
for dataframe in side_info_dataframes:
    if dataframe.shape[1] == 2:
        dataframe = self.add_implicit_ones(dataframe)
    elif dataframe.shape[1] != 3:
        raise ValueError(...)
    side_information.append(self.to_coo(dataframe, rows).tocsr())
return sp.hstack(side_information)
```

The result is the list of per-dataframe COO matrices, with any error of
the per-dataframe `to_coo` propagated from the iteration that raised it;
the trailing `tocsr()`/`sp.hstack` conversions are the scipy plumbing the
spec excludes and are not modelled. -/
def SideInformationLoader.call :
    List PDataFrame → ℕ → Except PyErr (List CooMatrix)
  | [], _ => .ok []
  | dataframe :: rest, rows =>
    if dataframe.nCols = 2 then
      (SideInformationLoader.to_coo
          (addImplicitOnesVal dataframe "implicit 1s") rows).bind
        (fun m => (SideInformationLoader.call rest rows).map
          (fun ms => m :: ms))
    else if dataframe.nCols = 3 then
      (SideInformationLoader.to_coo dataframe rows).bind
        (fun m => (SideInformationLoader.call rest rows).map
          (fun ms => m :: ms))
    else
      .error .valueError

/-! ### Helper lemmas on the dataframe model -/

/-- A cell of a dataframe row equals the corresponding cell of the
column-major numpy view. -/
theorem PDataFrame.rowAt_getD (df : PDataFrame) (k j : ℕ) (hj : j < df.nCols) :
    (df.rowAt k).getD j 0 = (df.npCol j).getD k 0 := by
  unfold PDataFrame.rowAt PDataFrame.npCol
  have hj' : j < (df.cols.map (fun c => c.2.getD k 0)).length := by
    simpa using hj
  have hcols : df.cols.getD j ("", []) = df.cols[j] :=
    List.getD_eq_getElem _ _ hj
  rw [List.getD_eq_getElem _ _ hj', List.getElem_map, hcols]

/-- In a wellformed dataframe, every real column has `nRows` entries. -/
theorem PDataFrame.npCol_length (df : PDataFrame) (j : ℕ) (hwf : df.wf)
    (hj : j < df.nCols) : (df.npCol j).length = df.nRows := by
  unfold PDataFrame.npCol
  have hj' : j < df.cols.length := hj
  rw [List.getD_eq_getElem _ _ hj']
  exact hwf _ (List.getElem_mem hj')

/-- Folding `max` over natural numbers cast into `ℚ` stays a natural. -/
theorem foldl_max_natCast (t : List ℚ) (i : ℕ)
    (h : ∀ v ∈ t, ∃ k : ℕ, v = (k : ℚ)) :
    ∃ K : ℕ, List.foldl max ((i : ℕ) : ℚ) t = (K : ℚ) := by
  induction t generalizing i with
  | nil => exact ⟨i, rfl⟩
  | cons a t ih =>
    obtain ⟨k, hk⟩ := h a (List.mem_cons_self a t)
    have : max ((i : ℕ) : ℚ) a = ((max i k : ℕ) : ℚ) := by
      rw [hk, Nat.cast_max]
    rw [List.foldl_cons, this]
    exact ih _ (fun v hv => h v (List.mem_cons_of_mem a hv))

/-- The numpy maximum of a nonempty list of naturals (cast to `ℚ`) is a
natural. -/
theorem npMax_natCast (l : List ℚ) (hne : l ≠ [])
    (h : ∀ v ∈ l, ∃ k : ℕ, v = (k : ℚ)) :
    ∃ K : ℕ, npMax l = (K : ℚ) := by
  cases l with
  | nil => exact absurd rfl hne
  | cons a t =>
    obtain ⟨k, hk⟩ := h a (List.mem_cons_self a t)
    unfold npMax
    rw [List.headD_cons, List.foldl_cons, hk, max_self]
    exact foldl_max_natCast t k (fun v hv => h v (List.mem_cons_of_mem a hv))

/-! ### Claims C2 and C9: `to_coo` -/

/-- On a rectangular dataframe with at least three columns and at least one
row, `to_coo` succeeds and yields the record built from the first three
columns. -/
theorem to_coo_ok (df : PDataFrame) (rows : ℕ)
    (hwf : df.wf) (hc : 3 ≤ df.nCols) (hr : 1 ≤ df.nRows) :
    SideInformationLoader.to_coo df rows = .ok
      { data := df.npCol 2
        row := df.npCol 0
        col := df.npCol 1
        shape := ((rows : ℤ) + 1, pyInt (npMax (df.npCol 1)) + 1) } := by
  have hne : df.npCol 1 ≠ [] := by
    have hl := df.npCol_length 1 hwf (by omega)
    intro h
    rw [h] at hl
    simp at hl
    omega
  unfold SideInformationLoader.to_coo npMaxE
  rw [if_neg (by omega), if_neg hne]
  rfl

/-- Claim C2: for every DataFrame with at least three columns and at least
one row, `SideInformationLoader.to_coo` returns a COO matrix whose number of
stored entries equals the number of rows of the DataFrame, and every row
`(r, c, v)` of the DataFrame is stored as an entry with row index `r`,
column index `c` and value `v`. -/
theorem to_coo_preserves_entries (df : PDataFrame) (rows : ℕ)
    (hwf : df.wf) (hc : 3 ≤ df.nCols) (hr : 1 ≤ df.nRows) :
    ∃ m, SideInformationLoader.to_coo df rows = .ok m ∧
      m.data.length = df.nRows ∧
      ∀ k, k < df.nRows →
        ∃ j, j < m.data.length ∧
          m.row.getD j 0 = (df.rowAt k).getD 0 0 ∧
          m.col.getD j 0 = (df.rowAt k).getD 1 0 ∧
          m.data.getD j 0 = (df.rowAt k).getD 2 0 := by
  refine ⟨_, to_coo_ok df rows hwf hc hr, ?_, ?_⟩
  · exact df.npCol_length 2 hwf (by omega)
  · intro k hk
    have hlen : (df.npCol 2).length = df.nRows :=
      df.npCol_length 2 hwf (by omega)
    refine ⟨k, by show k < (df.npCol 2).length; omega, ?_, ?_, ?_⟩
    · rw [df.rowAt_getD k 0 (by omega)]
    · rw [df.rowAt_getD k 1 (by omega)]
    · rw [df.rowAt_getD k 2 (by omega)]

/-- Witness for C2 on a concrete three-column dataframe. -/
theorem to_coo_preserves_entries_witness :
    ∃ m, SideInformationLoader.to_coo
        ⟨[("r", [0, 1]), ("c", [2, 0]), ("v", [3, 4])]⟩ 5 = .ok m ∧
      m.data.length =
        PDataFrame.nRows ⟨[("r", [0, 1]), ("c", [2, 0]), ("v", [3, 4])]⟩ ∧
      ∀ k, k < PDataFrame.nRows
          ⟨[("r", [0, 1]), ("c", [2, 0]), ("v", [3, 4])]⟩ →
        ∃ j, j < m.data.length ∧
          m.row.getD j 0 =
            (PDataFrame.rowAt ⟨[("r", [0, 1]), ("c", [2, 0]), ("v", [3, 4])]⟩
              k).getD 0 0 ∧
          m.col.getD j 0 =
            (PDataFrame.rowAt ⟨[("r", [0, 1]), ("c", [2, 0]), ("v", [3, 4])]⟩
              k).getD 1 0 ∧
          m.data.getD j 0 =
            (PDataFrame.rowAt ⟨[("r", [0, 1]), ("c", [2, 0]), ("v", [3, 4])]⟩
              k).getD 2 0 :=
  to_coo_preserves_entries ⟨[("r", [0, 1]), ("c", [2, 0]), ("v", [3, 4])]⟩ 5
    (by decide) (by decide) (by decide)

/-- Claim C9: the matrix built by `to_coo` has `rows + 1` rows — one more
than the `rows` argument requests — and `max(column indices) + 1` columns
(for natural-number column indices). -/
theorem to_coo_shape (df : PDataFrame) (rows : ℕ)
    (hwf : df.wf) (hc : 3 ≤ df.nCols) (hr : 1 ≤ df.nRows)
    (hnat : ∀ v ∈ df.npCol 1, ∃ k : ℕ, v = (k : ℚ)) :
    ∃ m, SideInformationLoader.to_coo df rows = .ok m ∧
      m.shape.1 = (rows : ℤ) + 1 ∧
      ((m.shape.2 : ℤ) : ℚ) = npMax (df.npCol 1) + 1 := by
  refine ⟨_, to_coo_ok df rows hwf hc hr, rfl, ?_⟩
  have hne : df.npCol 1 ≠ [] := by
    have hl := df.npCol_length 1 hwf (by omega)
    intro h
    rw [h] at hl
    simp at hl
    omega
  obtain ⟨K, hK⟩ := npMax_natCast _ hne hnat
  show ((pyInt (npMax (df.npCol 1)) + 1 : ℤ) : ℚ) = npMax (df.npCol 1) + 1
  rw [hK]
  unfold pyInt
  rw [if_pos (by positivity)]
  push_cast [Int.floor_natCast]
  ring

/-- Witness for C9 on a concrete three-column dataframe. -/
theorem to_coo_shape_witness :
    ∃ m, SideInformationLoader.to_coo
        ⟨[("r", [0, 1]), ("c", [2, 0]), ("v", [3, 4])]⟩ 5 = .ok m ∧
      m.shape.1 = ((5 : ℕ) : ℤ) + 1 ∧
      ((m.shape.2 : ℤ) : ℚ) =
        npMax (PDataFrame.npCol
          ⟨[("r", [0, 1]), ("c", [2, 0]), ("v", [3, 4])]⟩ 1) + 1 :=
  to_coo_shape ⟨[("r", [0, 1]), ("c", [2, 0]), ("v", [3, 4])]⟩ 5
    (by decide) (by decide) (by decide)
    (by
      intro v hv
      simp [PDataFrame.npCol] at hv
      rcases hv with h | h
      · exact ⟨2, by rw [h]; norm_num⟩
      · exact ⟨0, by rw [h]; norm_num⟩)

/-! ### Claim C10: `add_implicit_ones` -/

/-- Counterexample to C10 as stated: on a dataframe that already has a
column named `"implicit 1s"`, `add_implicit_ones` does not append a new
column — it overwrites the existing one in place, so the column count stays
at 2 and the original first column is changed. -/
theorem add_implicit_ones_cex :
    ((SideInformationLoader.add_implicit_ones
        [⟨[("implicit 1s", [5]), ("c", [7])]⟩] 0 "implicit 1s").1.getD 0
        default).cols ≠
      [("implicit 1s", [5]), ("c", [7])] ++
        [("implicit 1s", List.replicate 1 1)] ∧
    ((SideInformationLoader.add_implicit_ones
        [⟨[("implicit 1s", [5]), ("c", [7])]⟩] 0 "implicit 1s").1.getD 0
        default).nCols = 2 := by
  constructor
  · decide
  · decide

/-- Claim C10 (amended): provided the dataframe does not already have a
column of the given name, `add_implicit_ones` mutates it in place — the heap
slot is updated to the dataframe with the original columns unchanged and one
new column of ones appended — returns the very reference it was given, and
leaves every other object untouched. -/
theorem add_implicit_ones_inplace (heap : DfHeap) (ref : ℕ) (name : String)
    (href : ref < List.length heap)
    (hname : name ∉ (List.getD heap ref default).cols.map Prod.fst) :
    (SideInformationLoader.add_implicit_ones heap ref name).2 = ref ∧
    (SideInformationLoader.add_implicit_ones heap ref name).1 =
      List.set heap ref
        ⟨(List.getD heap ref default).cols ++
          [(name, List.replicate (List.getD heap ref default).nRows 1)]⟩ ∧
    ∀ j, j ≠ ref →
      List.getD (SideInformationLoader.add_implicit_ones heap ref name).1 j
        default = List.getD heap j default := by
  have hassign : addImplicitOnesVal (List.getD heap ref default) name =
      ⟨(List.getD heap ref default).cols ++
        [(name, List.replicate (List.getD heap ref default).nRows 1)]⟩ := by
    unfold addImplicitOnesVal PDataFrame.assign
    rw [if_neg]
    intro hmem
    exact hname (List.elem_iff.mp hmem)
  refine ⟨rfl, ?_, ?_⟩
  · show List.set heap ref _ = _
    rw [hassign]
  · intro j hj
    show List.getD (List.set heap ref _) j default = _
    rw [List.getD_eq_getElem?_getD, List.getD_eq_getElem?_getD,
      List.getElem?_set_ne (by omega)]
    exact (List.getD_eq_getElem?_getD heap j default).symm

/-- Witness for the amended C10 on a concrete one-object heap. -/
theorem add_implicit_ones_inplace_witness :
    (SideInformationLoader.add_implicit_ones [⟨[("g", [4, 5]), ("d", [6, 7])]⟩]
      0 "implicit 1s").2 = 0 ∧
    (SideInformationLoader.add_implicit_ones [⟨[("g", [4, 5]), ("d", [6, 7])]⟩]
      0 "implicit 1s").1 =
      List.set [⟨[("g", [4, 5]), ("d", [6, 7])]⟩] 0
        ⟨(List.getD [(⟨[("g", [4, 5]), ("d", [6, 7])]⟩ : PDataFrame)] 0
            default).cols ++
          [("implicit 1s", List.replicate
            (List.getD [(⟨[("g", [4, 5]), ("d", [6, 7])]⟩ : PDataFrame)] 0
              default).nRows 1)]⟩ ∧
    ∀ j, j ≠ 0 →
      List.getD (SideInformationLoader.add_implicit_ones
        [⟨[("g", [4, 5]), ("d", [6, 7])]⟩] 0 "implicit 1s").1 j default =
        List.getD [(⟨[("g", [4, 5]), ("d", [6, 7])]⟩ : PDataFrame)] j default :=
  add_implicit_ones_inplace [⟨[("g", [4, 5]), ("d", [6, 7])]⟩] 0 "implicit 1s"
    (by decide) (by decide)

/-! ### Claim C5: `__call__` validation -/

/-- Counterexample to C5 as stated: a three-column DataFrame with zero
rows makes `__call__` raise `ValueError` — numpy `max` on a zero-size
array — although every column count is valid, and a two-column DataFrame
that already has an `"implicit 1s"` column is not accepted with score 1:
the implicit-ones pass overwrites the existing column, the frame keeps two
columns, and the third-column access raises `IndexError`. -/
theorem side_call_cex :
    (SideInformationLoader.call [⟨[("g", []), ("d", []), ("s", [])]⟩] 4 =
        .error .valueError ∧
      PDataFrame.nCols ⟨[("g", []), ("d", []), ("s", [])]⟩ = 3) ∧
    (SideInformationLoader.call [⟨[("implicit 1s", [5]), ("d", [7])]⟩] 4 =
        .error .indexError ∧
      PDataFrame.nCols ⟨[("implicit 1s", [5]), ("d", [7])]⟩ = 2) := by
  refine ⟨⟨?_, rfl⟩, ⟨?_, rfl⟩⟩ <;> rfl

/-- A rectangular two-column dataframe with at least one row and no
pre-existing `"implicit 1s"` column passes `to_coo` after the
implicit-ones pass, and every stored value of its matrix is `1`. -/
theorem to_coo_two_col_ok (df : PDataFrame) (rows : ℕ)
    (hwf : df.wf) (h2 : df.nCols = 2) (hr : 1 ≤ df.nRows)
    (hnc : "implicit 1s" ∉ df.cols.map Prod.fst) :
    ∃ m, SideInformationLoader.to_coo
        (addImplicitOnesVal df "implicit 1s") rows = .ok m ∧
      ∀ v ∈ m.data, v = 1 := by
  obtain ⟨c0, c1, hcols⟩ := List.length_eq_two.mp h2
  have hassign : addImplicitOnesVal df "implicit 1s" =
      ⟨[c0, c1] ++ [("implicit 1s", List.replicate df.nRows 1)]⟩ := by
    unfold addImplicitOnesVal PDataFrame.assign
    rw [if_neg, hcols]
    intro hmem
    exact hnc (List.elem_iff.mp hmem)
  have hc1len : c1.2.length = df.nRows := hwf c1 (by rw [hcols]; simp)
  have hne : PDataFrame.npCol
      ⟨[c0, c1] ++ [("implicit 1s", List.replicate df.nRows 1)]⟩ 1 ≠ [] := by
    show c1.2 ≠ []
    intro h
    rw [h] at hc1len
    simp at hc1len
    omega
  rw [hassign]
  refine ⟨{ data := List.replicate df.nRows 1
            row := c0.2
            col := c1.2
            shape := ((rows : ℤ) + 1, pyInt (npMax c1.2) + 1) }, ?_, ?_⟩
  · unfold SideInformationLoader.to_coo npMaxE
    rw [if_neg (by
      show ¬PDataFrame.nCols
        ⟨[c0, c1] ++ [("implicit 1s", List.replicate df.nRows 1)]⟩ < 3
      simp [PDataFrame.nCols]), if_neg hne]
    rfl
  · intro v hv
    exact List.eq_of_mem_replicate hv

/-- Claim C5 (amended): provided every DataFrame is rectangular, every
DataFrame with two or three columns has at least one row, and no
two-column DataFrame already has a column named `"implicit 1s"`:
`SideInformationLoader.__call__` raises `ValueError` exactly when some
input dataframe has a column count other than 2 or 3; when it succeeds it
yields one matrix per dataframe, and a dataframe with exactly two columns
gets the implicit score `1` for every stored entry.  (Outside the
provisos the underlying numpy operations raise instead: `max` on a
zero-row frame raises `ValueError`, and a name-colliding two-column frame
raises `IndexError` at the third-column access.) -/
theorem side_call_validation (dfs : List PDataFrame) (rows : ℕ)
    (hwf : ∀ df ∈ dfs, df.wf)
    (hrows : ∀ df ∈ dfs, df.nCols = 2 ∨ df.nCols = 3 → 1 ≤ df.nRows)
    (hnc : ∀ df ∈ dfs, df.nCols = 2 →
      "implicit 1s" ∉ df.cols.map Prod.fst) :
    (SideInformationLoader.call dfs rows = .error .valueError ↔
      ∃ df ∈ dfs, df.nCols ≠ 2 ∧ df.nCols ≠ 3) ∧
    ∀ ms, SideInformationLoader.call dfs rows = .ok ms →
      ms.length = dfs.length ∧
      ∀ i, i < dfs.length → (dfs.getD i default).nCols = 2 →
        ∀ v ∈ (ms.getD i default).data, v = 1 := by
  induction dfs with
  | nil =>
    refine ⟨by simp [SideInformationLoader.call], ?_⟩
    intro ms hms
    simp only [SideInformationLoader.call] at hms
    cases hms
    exact ⟨rfl, fun i hi => absurd hi (by simp)⟩
  | cons df rest ih =>
    obtain ⟨ih1, ih2⟩ := ih
      (fun d hd => hwf d (List.mem_cons_of_mem df hd))
      (fun d hd => hrows d (List.mem_cons_of_mem df hd))
      (fun d hd => hnc d (List.mem_cons_of_mem df hd))
    have hdfmem : df ∈ df :: rest := List.mem_cons_self df rest
    by_cases h2 : df.nCols = 2
    · obtain ⟨m, hm, hones⟩ := to_coo_two_col_ok df rows (hwf df hdfmem) h2
        (hrows df hdfmem (Or.inl h2)) (hnc df hdfmem h2)
      have hcall : SideInformationLoader.call (df :: rest) rows =
          (SideInformationLoader.call rest rows).map (fun ms => m :: ms) := by
        rw [show SideInformationLoader.call (df :: rest) rows =
          (SideInformationLoader.to_coo
            (addImplicitOnesVal df "implicit 1s") rows).bind
            (fun m => (SideInformationLoader.call rest rows).map
              (fun ms => m :: ms)) by
          simp [SideInformationLoader.call, h2], hm]
        rfl
      cases hr : SideInformationLoader.call rest rows with
      | ok tail =>
        have hcall2 : SideInformationLoader.call (df :: rest) rows =
            .ok (m :: tail) := by rw [hcall, hr]; rfl
        refine ⟨?_, ?_⟩
        · rw [hcall2]
          constructor
          · intro h; cases h
          · rintro ⟨d, hd, hne2, hne3⟩
            rcases List.mem_cons.mp hd with h | h
            · exact absurd (h ▸ h2) hne2
            · have := ih1.mpr ⟨d, h, hne2, hne3⟩
              rw [hr] at this; cases this
        · intro ms hms
          rw [hcall2] at hms
          cases hms
          refine ⟨by simpa using (ih2 tail hr).1, ?_⟩
          intro i hi hcols v hv
          cases i with
          | zero =>
            rw [List.getD_cons_zero] at hv
            exact hones v hv
          | succ k =>
            rw [List.getD_cons_succ] at hv hcols
            exact (ih2 tail hr).2 k (by simpa using hi) hcols v hv
      | error e =>
        have hcall2 : SideInformationLoader.call (df :: rest) rows =
            .error e := by rw [hcall, hr]; rfl
        refine ⟨?_, ?_⟩
        · rw [hcall2]
          constructor
          · intro h
            cases h
            obtain ⟨d, hd, h23⟩ := ih1.mp hr
            exact ⟨d, List.mem_cons_of_mem df hd, h23⟩
          · rintro ⟨d, hd, hne2, hne3⟩
            rcases List.mem_cons.mp hd with h | h
            · exact absurd (h ▸ h2) hne2
            · rw [ih1.mpr ⟨d, h, hne2, hne3⟩] at hr
              cases hr
              rfl
        · intro ms hms; rw [hcall2] at hms; cases hms
    · by_cases h3 : df.nCols = 3
      · obtain ⟨m, hm, -⟩ := to_coo_preserves_entries df rows
          (hwf df hdfmem) (by omega) (hrows df hdfmem (Or.inr h3))
        have hcall : SideInformationLoader.call (df :: rest) rows =
            (SideInformationLoader.call rest rows).map
              (fun ms => m :: ms) := by
          rw [show SideInformationLoader.call (df :: rest) rows =
            (SideInformationLoader.to_coo df rows).bind
              (fun m => (SideInformationLoader.call rest rows).map
                (fun ms => m :: ms)) by
            simp [SideInformationLoader.call, h2, h3], hm]
          rfl
        cases hr : SideInformationLoader.call rest rows with
        | ok tail =>
          have hcall2 : SideInformationLoader.call (df :: rest) rows =
              .ok (m :: tail) := by rw [hcall, hr]; rfl
          refine ⟨?_, ?_⟩
          · rw [hcall2]
            constructor
            · intro h; cases h
            · rintro ⟨d, hd, hne2, hne3⟩
              rcases List.mem_cons.mp hd with h | h
              · exact absurd (h ▸ h3) hne3
              · have := ih1.mpr ⟨d, h, hne2, hne3⟩
                rw [hr] at this; cases this
          · intro ms hms
            rw [hcall2] at hms
            cases hms
            refine ⟨by simpa using (ih2 tail hr).1, ?_⟩
            intro i hi hcols v hv
            cases i with
            | zero =>
              rw [List.getD_cons_zero] at hcols
              exact absurd hcols h2
            | succ k =>
              rw [List.getD_cons_succ] at hv hcols
              exact (ih2 tail hr).2 k (by simpa using hi) hcols v hv
        | error e =>
          have hcall2 : SideInformationLoader.call (df :: rest) rows =
              .error e := by rw [hcall, hr]; rfl
          refine ⟨?_, ?_⟩
          · rw [hcall2]
            constructor
            · intro h
              cases h
              obtain ⟨d, hd, h23⟩ := ih1.mp hr
              exact ⟨d, List.mem_cons_of_mem df hd, h23⟩
            · rintro ⟨d, hd, hne2, hne3⟩
              rcases List.mem_cons.mp hd with h | h
              · exact absurd (h ▸ h3) hne3
              · rw [ih1.mpr ⟨d, h, hne2, hne3⟩] at hr
                cases hr
                rfl
          · intro ms hms; rw [hcall2] at hms; cases hms
      · have hcall2 : SideInformationLoader.call (df :: rest) rows =
            .error .valueError := by
          simp [SideInformationLoader.call, h2, h3]
        refine ⟨?_, ?_⟩
        · rw [hcall2]
          exact ⟨fun _ => ⟨df, List.mem_cons_self df rest, h2, h3⟩,
            fun _ => rfl⟩
        · intro ms hms; rw [hcall2] at hms; cases hms

/-- Witness for the amended C5: a two-column dataframe and a three-column
dataframe, both with one row and without name collision, are accepted and
the two-column one is scored with ones. -/
theorem side_call_validation_witness :
    (SideInformationLoader.call
        [⟨[("g", [0]), ("d", [1])]⟩, ⟨[("g", [0]), ("d", [1]), ("s", [2])]⟩]
        4 = .error .valueError ↔
      ∃ df ∈ [(⟨[("g", [0]), ("d", [1])]⟩ : PDataFrame),
        ⟨[("g", [0]), ("d", [1]), ("s", [2])]⟩],
        df.nCols ≠ 2 ∧ df.nCols ≠ 3) ∧
    ∀ ms, SideInformationLoader.call
        [⟨[("g", [0]), ("d", [1])]⟩, ⟨[("g", [0]), ("d", [1]), ("s", [2])]⟩]
        4 = .ok ms →
      ms.length = List.length
        [(⟨[("g", [0]), ("d", [1])]⟩ : PDataFrame),
          ⟨[("g", [0]), ("d", [1]), ("s", [2])]⟩] ∧
      ∀ i, i < List.length
          [(⟨[("g", [0]), ("d", [1])]⟩ : PDataFrame),
            ⟨[("g", [0]), ("d", [1]), ("s", [2])]⟩] →
        (List.getD [(⟨[("g", [0]), ("d", [1])]⟩ : PDataFrame),
          ⟨[("g", [0]), ("d", [1]), ("s", [2])]⟩] i default).nCols = 2 →
        ∀ v ∈ (ms.getD i default).data, v = 1 :=
  side_call_validation
    [⟨[("g", [0]), ("d", [1])]⟩, ⟨[("g", [0]), ("d", [1]), ("s", [2])]⟩] 4
    (by decide) (by decide) (by decide)

/-! ### Postprocessing: `dataframes.py` -/

/-- PTable models a pandas `DataFrame` built row-major from a 2-D array,
as `pd.DataFrame(data, columns=..., index=...)` does: an index of row
labels, a list of column names, and the cell data row by row. -/
structure PTable (α : Type) where
  index : List String
  columns : List String
  data : List (List α)

/-- Mean of a numpy 1-D array, `np.mean`. -/
def npMeanList (l : List ℚ) : ℚ := l.sum / (l.length : ℚ)

/-- Population variance of a numpy 1-D array. -/
def npVarList (l : List ℚ) : ℚ :=
  (l.map (fun v => (v - npMeanList l) ^ 2)).sum / (l.length : ℚ)

/-- Standard deviation `np.std`: the square root of the population
variance.  The floating-point square root is the `sqrt` parameter. -/
def npStdList (sqrt : ℚ → ℚ) (l : List ℚ) : ℚ := sqrt (npVarList l)

/-- Transpose of a 2-D numpy array stored row-major (rows of equal
length). -/
def transposeQ (m : List (List ℚ)) : List (List ℚ) :=
  (List.range (m.headD []).length).map (fun j => m.map (fun r => r.getD j 0))

/-- Mean over axis 1 of a 3-D array of shape `(A, D, M)`: for each outer
slice, the column-wise means, giving shape `(A, M)`. -/
def npMeanAxis1 (x : List (List (List ℚ))) : List (List ℚ) :=
  x.map (fun sl => (transposeQ sl).map npMeanList)

/-- Standard deviation over axis 1 of a 3-D array of shape `(A, D, M)`,
giving shape `(A, M)`. -/
def npStdAxis1 (sqrt : ℚ → ℚ) (x : List (List (List ℚ))) :
    List (List ℚ) :=
  x.map (fun sl => (transposeQ sl).map (npStdList sqrt))

/-- Horizontal stacking `np.hstack((a, b))` of two 2-D arrays: rows are
concatenated pairwise. -/
def npHstack2 (a b : List (List ℚ)) : List (List ℚ) :=
  List.zipWith (fun r s => r ++ s) a b

/-- Reshape `arr.reshape((-1, w))`: cut the row-major stream of entries
into rows of width `w`. -/
def npReshapeRows (w : ℕ) (l : List ℚ) : List (List ℚ) :=
  if h : 0 < w ∧ l ≠ [] then
    l.take w :: npReshapeRows w (l.drop w)
  else []
termination_by l.length
decreasing_by
  simp only [List.length_drop]
  have : 0 < l.length := List.length_pos.mpr h.2
  omega

/-- generate_auc_loss_table:

```python
dataframe = pd.DataFrame(
    auc_loss, columns=[avg_auc_loss_name, std_auc_loss_name], index=model_names
).map(lambda x: f"...")
return dataframe
```

`fmt` stands for the float formatter `lambda x: f"{x:.2e}"` applied to each
cell. -/
def generate_auc_loss_table (fmt : ℚ → String) (auc_loss : List (List ℚ))
    (model_names : List String)
    (avg_auc_loss_name std_auc_loss_name : String) : PTable String :=
  { index := model_names
    columns := [avg_auc_loss_name, std_auc_loss_name]
    data := auc_loss.map (fun r => r.map fmt) }

/-- generate_bedroc_table:

```python
if len(alpha_map) != bedroc.shape[0]:
    raise ValueError
bedroc = np.hstack((bedroc.mean(axis=1), bedroc.std(axis=1))).reshape(
    (-1, len(alpha_map)*2))
column_names = np.array([
    (f"... (top {alpha})", f"... (top {alpha})")
    for alpha in alpha_map.values()
]).flatten()
dataframe = pd.DataFrame(
    bedroc, columns=column_names, index=model_names
).map(lambda x: f"...")
return dataframe
```

`alpha_map` is the insertion-ordered dict of alpha values to labels;
`sqrt` and `fmt` stand for the floating-point square root inside `np.std`
and the `"{x:.2e}"` cell formatter. -/
def generate_bedroc_table (sqrt : ℚ → ℚ) (fmt : ℚ → String)
    (bedroc : List (List (List ℚ))) (model_names : List String)
    (alpha_map : List (ℚ × String))
    (avg_bedroc_score_name std_bedroc_score_name : String) :
    Except PyErr (PTable String) :=
  if alpha_map.length ≠ bedroc.length then .error .valueError
  else
    .ok
      { index := model_names
        columns := (alpha_map.map (fun al =>
          [avg_bedroc_score_name ++ " (top " ++ al.2 ++ ")",
            std_bedroc_score_name ++ " (top " ++ al.2 ++ ")"])).flatten
        data := (npReshapeRows (alpha_map.length * 2)
          (npHstack2 (npMeanAxis1 bedroc)
            (npStdAxis1 sqrt bedroc)).flatten).map (fun r => r.map fmt) }

/-! ### Claim C7: `generate_auc_loss_table` -/

/-- Claim C7: for a `(M, 2)` loss array and `M` model names, the AUC-loss
table has the model names as index, exactly the two loss columns, `M` data
rows, and each cell is the corresponding input value rendered by the
scientific format. -/
theorem generate_auc_loss_table_shape (fmt : ℚ → String)
    (auc_loss : List (List ℚ)) (model_names : List String)
    (avg_auc_loss_name std_auc_loss_name : String)
    (hM : auc_loss.length = model_names.length)
    (hrow : ∀ r ∈ auc_loss, r.length = 2) :
    (generate_auc_loss_table fmt auc_loss model_names avg_auc_loss_name
      std_auc_loss_name).index = model_names ∧
    (generate_auc_loss_table fmt auc_loss model_names avg_auc_loss_name
      std_auc_loss_name).columns = [avg_auc_loss_name, std_auc_loss_name] ∧
    (generate_auc_loss_table fmt auc_loss model_names avg_auc_loss_name
      std_auc_loss_name).data.length = model_names.length ∧
    ∀ i j, i < model_names.length → j < 2 →
      ((generate_auc_loss_table fmt auc_loss model_names avg_auc_loss_name
        std_auc_loss_name).data.getD i []).getD j "" =
        fmt ((auc_loss.getD i []).getD j 0) := by
  refine ⟨rfl, rfl, by simp [generate_auc_loss_table, hM], ?_⟩
  intro i j hi hj
  have hi' : i < auc_loss.length := by omega
  have hmap : i < (auc_loss.map (fun r => r.map fmt)).length := by
    simpa using hi'
  show ((auc_loss.map (fun r => r.map fmt)).getD i []).getD j "" = _
  rw [List.getD_eq_getElem _ _ hmap, List.getElem_map,
    List.getD_eq_getElem _ _ hi']
  have hjlen : j < auc_loss[i].length := by
    rw [hrow auc_loss[i] (List.getElem_mem hi')]; omega
  have hjmap : j < (auc_loss[i].map fmt).length := by simpa using hjlen
  rw [List.getD_eq_getElem _ _ hjmap, List.getElem_map,
    List.getD_eq_getElem _ _ hjlen]

/-- Witness for C7 on a concrete `(2, 2)` loss array. -/
theorem generate_auc_loss_table_shape_witness :
    (generate_auc_loss_table (fun _ => "c") [[1, 2], [3, 4]] ["m1", "m2"]
      "Averaged 1-AUC error" "Std 1-AUC error").index = ["m1", "m2"] ∧
    (generate_auc_loss_table (fun _ => "c") [[1, 2], [3, 4]] ["m1", "m2"]
      "Averaged 1-AUC error" "Std 1-AUC error").columns =
      ["Averaged 1-AUC error", "Std 1-AUC error"] ∧
    (generate_auc_loss_table (fun _ => "c") [[1, 2], [3, 4]] ["m1", "m2"]
      "Averaged 1-AUC error" "Std 1-AUC error").data.length =
      List.length ["m1", "m2"] ∧
    ∀ i j, i < List.length ["m1", "m2"] → j < 2 →
      ((generate_auc_loss_table (fun _ => "c") [[1, 2], [3, 4]] ["m1", "m2"]
        "Averaged 1-AUC error" "Std 1-AUC error").data.getD i []).getD j "" =
        (fun _ => "c") ((List.getD [[(1 : ℚ), 2], [3, 4]] i []).getD j 0) :=
  generate_auc_loss_table_shape (fun _ => "c") [[1, 2], [3, 4]] ["m1", "m2"]
    "Averaged 1-AUC error" "Std 1-AUC error" (by decide)
    (by intro r hr; fin_cases hr <;> rfl)

/-! ### Shape lemmas for `generate_bedroc_table` -/

/-- Flattening rows of uniform length `k` yields `rows * k` entries. -/
theorem flatten_length_uniform {α : Type} (rows : List (List α)) (k : ℕ)
    (h : ∀ r ∈ rows, r.length = k) :
    rows.flatten.length = rows.length * k := by
  induction rows with
  | nil => simp
  | cons r rest ih =>
    rw [List.flatten_cons, List.length_append,
      ih (fun s hs => h s (List.mem_cons_of_mem r hs)),
      h r (List.mem_cons_self r rest)]
    simp [Nat.succ_mul, Nat.add_comm]

/-- Reshaping a stream whose length is a multiple of `w` produces
`length / w` rows of width `w`. -/
theorem npReshapeRows_spec (n : ℕ) : ∀ (w : ℕ), 0 < w → ∀ l : List ℚ,
    l.length = n → w ∣ n →
    (npReshapeRows w l).length = n / w ∧
    ∀ r ∈ npReshapeRows w l, r.length = w := by
  induction n using Nat.strong_induction_on with
  | _ n ih =>
    intro w hw l hlen hdvd
    cases l with
    | nil =>
      rw [show npReshapeRows w [] = [] by rw [npReshapeRows]; simp]
      simp at hlen
      subst hlen
      simp
    | cons a t =>
      have hne : (a :: t : List ℚ) ≠ [] := by simp
      have hpos : 0 < n := by rw [← hlen]; simp
      obtain ⟨k, hk⟩ := hdvd
      have hkpos : 0 < k := by
        rcases Nat.eq_zero_or_pos k with h | h
        · rw [h, Nat.mul_zero] at hk; omega
        · exact h
      have hsub : w * k - w = w * (k - 1) := by
        cases k with
        | zero => omega
        | succ j => rw [Nat.mul_succ, Nat.succ_sub_one]; omega
      have hwn : w ≤ n := by
        calc w = w * 1 := (Nat.mul_one w).symm
        _ ≤ w * k := Nat.mul_le_mul_left w hkpos
        _ = n := hk.symm
      rw [show npReshapeRows w (a :: t) =
        (a :: t).take w :: npReshapeRows w ((a :: t).drop w) by
        rw [npReshapeRows]; rw [dif_pos ⟨hw, hne⟩]]
      have hdroplen : ((a :: t).drop w).length = n - w := by
        rw [List.length_drop, hlen]
      have hdvd' : w ∣ n - w := ⟨k - 1, by rw [hk, hsub]⟩
      have hlt : n - w < n := by omega
      obtain ⟨ihlen, ihrows⟩ := ih (n - w) hlt w hw _ hdroplen hdvd'
      constructor
      · rw [List.length_cons, ihlen, hk, hsub]
        rw [Nat.mul_div_cancel_left _ hw, Nat.mul_div_cancel_left _ hw]
        omega
      · intro r hr
        rcases List.mem_cons.mp hr with h | h
        · rw [h, List.length_take, hlen]; omega
        · exact ihrows r h

/-- Shape of the transpose of a nonempty `(D, M)` array. -/
theorem transposeQ_shape (m : List (List ℚ)) (M : ℕ)
    (hne : m ≠ []) (hrows : ∀ r ∈ m, r.length = M) :
    (transposeQ m).length = M := by
  unfold transposeQ
  rw [List.length_map, List.length_range]
  cases m with
  | nil => exact absurd rfl hne
  | cons r t => exact hrows r (List.mem_cons_self r t)

/-- Positional description of the interleaved column names: column `2*a`
is the averaged name for the `a`-th alpha label, column `2*a + 1` the
std name. -/
theorem flatten_pairs_getD (f g : String → String)
    (l : List (ℚ × String)) (a : ℕ) (ha : a < l.length) :
    ((l.map (fun al => [f al.2, g al.2])).flatten.getD (2 * a) "" =
      f (l.getD a (0, "")).2) ∧
    ((l.map (fun al => [f al.2, g al.2])).flatten.getD (2 * a + 1) "" =
      g (l.getD a (0, "")).2) := by
  induction l generalizing a with
  | nil => simp at ha
  | cons x t ih =>
    cases a with
    | zero => exact ⟨rfl, rfl⟩
    | succ b =>
      have hb : b < t.length := by simpa using ha
      have heq : ∀ d : ℕ, ((x :: t).map
          (fun al => [f al.2, g al.2])).flatten.getD (2 * (b + 1) + d) "" =
          (t.map (fun al => [f al.2, g al.2])).flatten.getD (2 * b + d) "" := by
        intro d
        rw [List.map_cons, List.flatten_cons]
        rw [List.getD_append_right _ _ _ _ (by simp; omega)]
        congr 1
        simp
        omega
      refine ⟨?_, ?_⟩
      · have := heq 0
        rw [show 2 * (b + 1) + 0 = 2 * (b + 1) by omega] at this
        rw [show 2 * b + 0 = 2 * b by omega] at this
        rw [this, (ih b hb).1, List.getD_cons_succ]
      · rw [heq 1, (ih b hb).2, List.getD_cons_succ]

/-! ### Claim C4: `generate_bedroc_table` -/

/-- Claim C4: for a `(A, D, M)` BEDROC array, `M` model names and an
`alpha_map` with `A` entries, the BEDROC table is produced without error,
indexed by the model names, with `M` data rows of `2 * A` cells, and its
`2 * A` column names interleave, in `alpha_map` order, the averaged-BEDROC
name and the std-BEDROC name for each alpha label. -/
theorem generate_bedroc_table_shape (sqrt : ℚ → ℚ) (fmt : ℚ → String)
    (bedroc : List (List (List ℚ))) (model_names : List String)
    (alpha_map : List (ℚ × String))
    (avg_bedroc_score_name std_bedroc_score_name : String) (A D M : ℕ)
    (hA : 0 < A) (hD : 0 < D) (hM : 0 < M)
    (hlenA : bedroc.length = A)
    (hslice : ∀ sl ∈ bedroc, sl.length = D ∧ ∀ r ∈ sl, r.length = M)
    (hnames : model_names.length = M)
    (halpha : alpha_map.length = A) :
    ∃ t, generate_bedroc_table sqrt fmt bedroc model_names alpha_map
        avg_bedroc_score_name std_bedroc_score_name = .ok t ∧
      t.index = model_names ∧
      t.data.length = M ∧
      (∀ r ∈ t.data, r.length = 2 * A) ∧
      t.columns.length = 2 * A ∧
      ∀ a, a < A →
        t.columns.getD (2 * a) "" =
          avg_bedroc_score_name ++ " (top " ++
            (alpha_map.getD a (0, "")).2 ++ ")" ∧
        t.columns.getD (2 * a + 1) "" =
          std_bedroc_score_name ++ " (top " ++
            (alpha_map.getD a (0, "")).2 ++ ")" := by
  have htrans : ∀ sl ∈ bedroc, (transposeQ sl).length = M := by
    intro sl hsl
    refine transposeQ_shape sl M ?_ (hslice sl hsl).2
    intro h
    have := (hslice sl hsl).1
    rw [h] at this
    simp at this
    omega
  have hmeanlen : (npMeanAxis1 bedroc).length = A := by
    simpa [npMeanAxis1] using hlenA
  have hstdlen : (npStdAxis1 sqrt bedroc).length = A := by
    simpa [npStdAxis1] using hlenA
  have hmeanrows : ∀ r ∈ npMeanAxis1 bedroc, r.length = M := by
    intro r hr
    obtain ⟨sl, hsl, hr⟩ := List.mem_map.mp hr
    rw [← hr, List.length_map]
    exact htrans sl hsl
  have hstdrows : ∀ r ∈ npStdAxis1 sqrt bedroc, r.length = M := by
    intro r hr
    obtain ⟨sl, hsl, hr⟩ := List.mem_map.mp hr
    rw [← hr, List.length_map]
    exact htrans sl hsl
  have hstacklen :
      (npHstack2 (npMeanAxis1 bedroc) (npStdAxis1 sqrt bedroc)).length = A := by
    unfold npHstack2
    rw [List.length_zipWith, hmeanlen, hstdlen]
    omega
  have hstackrows : ∀ r ∈ npHstack2 (npMeanAxis1 bedroc)
      (npStdAxis1 sqrt bedroc), r.length = 2 * M := by
    intro r hr
    unfold npHstack2 at hr
    obtain ⟨i, hi, hri⟩ := List.mem_iff_getElem.mp hr
    rw [← hri, List.getElem_zipWith, List.length_append]
    have hi' : i < (npMeanAxis1 bedroc).length := by
      rw [List.length_zipWith] at hi; omega
    have hi'' : i < (npStdAxis1 sqrt bedroc).length := by
      rw [List.length_zipWith] at hi; omega
    rw [hmeanrows _ (List.getElem_mem hi'), hstdrows _ (List.getElem_mem hi'')]
    omega
  have hflat :
      (npHstack2 (npMeanAxis1 bedroc) (npStdAxis1 sqrt bedroc)).flatten.length
        = A * (2 * M) := by
    rw [flatten_length_uniform _ (2 * M) hstackrows, hstacklen]
  have hw : 0 < alpha_map.length * 2 := by omega
  have hdvd : alpha_map.length * 2 ∣ A * (2 * M) :=
    ⟨M, by rw [halpha]; ring⟩
  obtain ⟨hreshlen, hreshrows⟩ := npReshapeRows_spec (A * (2 * M))
    (alpha_map.length * 2) hw _ hflat hdvd
  have hdivM : A * (2 * M) / (alpha_map.length * 2) = M := by
    rw [halpha, show A * (2 * M) = (A * 2) * M by ring]
    exact Nat.mul_div_cancel_left M (by omega)
  refine ⟨_, (by unfold generate_bedroc_table; rw [if_neg (by omega)]),
    rfl, ?_, ?_, ?_, ?_⟩
  · rw [List.length_map, hreshlen, hdivM]
  · intro r hr
    obtain ⟨s, hs, hrs⟩ := List.mem_map.mp hr
    rw [← hrs, List.length_map, hreshrows s hs, halpha]
    omega
  · rw [flatten_length_uniform _ 2 (by
      intro r hr
      obtain ⟨al, _, hal⟩ := List.mem_map.mp hr
      rw [← hal]
      rfl)]
    rw [List.length_map, halpha]
    omega
  · intro a ha
    have ha' : a < alpha_map.length := by omega
    exact flatten_pairs_getD
      (fun s => avg_bedroc_score_name ++ " (top " ++ s ++ ")")
      (fun s => std_bedroc_score_name ++ " (top " ++ s ++ ")")
      alpha_map a ha'

/-- Witness for C4 on a concrete `(1, 1, 1)` BEDROC array. -/
theorem generate_bedroc_table_shape_witness :
    ∃ t, generate_bedroc_table (fun q => q) (fun _ => "c") [[[3]]] ["m"]
        [(1, "1%")] "Averaged BEDROC score" "Std BEDROC score" = .ok t ∧
      t.index = ["m"] ∧
      t.data.length = 1 ∧
      (∀ r ∈ t.data, r.length = 2 * 1) ∧
      t.columns.length = 2 * 1 ∧
      ∀ a, a < 1 →
        t.columns.getD (2 * a) "" =
          "Averaged BEDROC score" ++ " (top " ++
            (List.getD [((1 : ℚ), "1%")] a (0, "")).2 ++ ")" ∧
        t.columns.getD (2 * a + 1) "" =
          "Std BEDROC score" ++ " (top " ++
            (List.getD [((1 : ℚ), "1%")] a (0, "")).2 ++ ")" :=
  generate_bedroc_table_shape (fun q => q) (fun _ => "c") [[[3]]] ["m"]
    [(1, "1%")] "Averaged BEDROC score" "Std BEDROC score" 1 1 1
    (by decide) (by decide) (by decide) (by decide)
    (by intro sl hsl; fin_cases hsl; exact ⟨rfl, by intro r hr; fin_cases hr; rfl⟩)
    (by decide) (by decide)

/-! ### Evaluation: `evaluation.py` -/

/-- Modelled from the spec: the `Results` class of
`evaluation/results.py` is imported by `evaluation.py` but its file is not
part of the sources.  Per the spec, each `Results` holds the results of one
fold/split, and `evaluation.py` unpacks it (`*result_per_fold`) into the
fold's true labels and predicted scores. -/
structure Results where
  y_true : List ℚ
  y_pred : List ℚ
deriving DecidableEq

instance : Inhabited Results := ⟨⟨[], []⟩⟩

/-- Python value that may or may not be a `Results` instance, as seen by
the `isinstance(result, Results)` check of `Evaluation.__init__`. -/
inductive PyObj where
  | results (r : Results)
  | other (tag : ℕ)
deriving DecidableEq

/-- Truth value of `isinstance(x, Results)`. -/
def PyObj.isResults : PyObj → Bool
  | .results _ => true
  | .other _ => false

/-- Loop body of `Evaluation.__init__`: scan the list and raise
`TypeError` at the first element that is not a `Results`. -/
def checkResultsTypes : List PyObj → Except PyErr Unit
  | [] => .ok ()
  | x :: t => if x.isResults then checkResultsTypes t else .error .typeError

/-- Evaluation.__init__:

```python
for i, result in enumerate(results):
    if not isinstance(result, Results):
        raise TypeError(...)
self.results = results
```

On success the constructor stores the given list itself. -/
def Evaluation.init (results : List PyObj) : Except PyErr (List PyObj) :=
  match checkResultsTypes results with
  | .error e => .error e
  | .ok _ => .ok results

/-- Evaluation models an `Evaluation` object after construction, together
with the `alphas` attribute that `compute_bedroc_scores` reads. -/
structure Evaluation where
  results : List Results
  alphas : List ℚ

/-- ROC-AUC score of `sklearn.metrics.roc_auc_score` for binary labels
(positive class `1`), by its documented semantics: the Mann-Whitney
statistic, i.e. the fraction of (positive, negative) pairs ranked
correctly, ties counting one half. -/
def rocAucScore (y_true y_pred : List ℚ) : ℚ :=
  let pairs := y_true.zip y_pred
  let pos := (pairs.filter (fun p => p.1 = 1)).map Prod.snd
  let neg := (pairs.filter (fun p => ¬p.1 = 1)).map Prod.snd
  (pos.map (fun s => (neg.map (fun t =>
    if t < s then (1 : ℚ) else if s = t then 1 / 2 else 0)).sum)).sum /
    ((pos.length : ℚ) * (neg.length : ℚ))

/-- Evaluation.compute_avg_auc_loss:

```python
auc_loss = [
    1 - metrics.roc_auc_score(*result_per_fold)
    for result_per_fold in self.results
]
return np.mean(auc_loss), np.std(auc_loss)
```

`sqrt` stands for the floating-point square root inside `np.std`. -/
def Evaluation.compute_avg_auc_loss (sqrt : ℚ → ℚ) (ev : Evaluation) :
    ℚ × ℚ :=
  let auc_loss := ev.results.map
    (fun result_per_fold =>
      1 - rocAucScore result_per_fold.y_true result_per_fold.y_pred)
  (npMeanList auc_loss, npStdList sqrt auc_loss)

/-! ### Claim C8: `Evaluation.__init__` type check -/

/-- Type-check scan: success exactly on all-`Results` lists, and the only
error raised is `TypeError`. -/
theorem checkResultsTypes_spec (l : List PyObj) :
    (checkResultsTypes l = .ok () ↔ ∀ x ∈ l, x.isResults = true) ∧
    (checkResultsTypes l = .error .typeError ↔
      ∃ x ∈ l, x.isResults = false) := by
  induction l with
  | nil => simp [checkResultsTypes]
  | cons x t ih =>
    by_cases hx : x.isResults = true
    · rw [show checkResultsTypes (x :: t) = checkResultsTypes t by
        simp [checkResultsTypes, hx]]
      constructor
      · rw [ih.1]
        constructor
        · intro h y hy
          rcases List.mem_cons.mp hy with h' | h'
          · rw [h', hx]
          · exact h y h'
        · intro h y hy
          exact h y (List.mem_cons_of_mem x hy)
      · rw [ih.2]
        constructor
        · rintro ⟨y, hy, hy'⟩
          exact ⟨y, List.mem_cons_of_mem x hy, hy'⟩
        · rintro ⟨y, hy, hy'⟩
          rcases List.mem_cons.mp hy with h' | h'
          · rw [h'] at hy'; rw [hx] at hy'; cases hy'
          · exact ⟨y, h', hy'⟩
    · rw [show checkResultsTypes (x :: t) = .error .typeError by
        simp [checkResultsTypes, hx]]
      constructor
      · constructor
        · intro h; cases h
        · intro h
          exact absurd (h x (List.mem_cons_self x t)) hx
      · constructor
        · intro _
          exact ⟨x, List.mem_cons_self x t, by simpa using hx⟩
        · intro _; rfl

/-- The only error the type-check scan can signal is `TypeError`. -/
theorem checkResultsTypes_error (l : List PyObj) (e : PyErr)
    (h : checkResultsTypes l = .error e) : e = .typeError := by
  induction l with
  | nil => simp [checkResultsTypes] at h
  | cons x t ih =>
    by_cases hx : x.isResults = true
    · rw [show checkResultsTypes (x :: t) = checkResultsTypes t by
        simp [checkResultsTypes, hx]] at h
      exact ih h
    · rw [show checkResultsTypes (x :: t) = .error .typeError by
        simp [checkResultsTypes, hx]] at h
      cases h
      rfl

/-- Claim C8: `Evaluation.__init__` raises `TypeError` exactly when some
element of the list is not a `Results` instance, and otherwise stores the
list unchanged as the `results` attribute. -/
theorem evaluation_init_typecheck (results : List PyObj) :
    (Evaluation.init results = .error .typeError ↔
      ∃ x ∈ results, x.isResults = false) ∧
    ((∀ x ∈ results, x.isResults = true) →
      Evaluation.init results = .ok results) := by
  obtain ⟨hok, herr⟩ := checkResultsTypes_spec results
  refine ⟨?_, ?_⟩
  · unfold Evaluation.init
    cases hc : checkResultsTypes results with
    | ok u =>
      cases u
      constructor
      · intro h; cases h
      · rintro ⟨x, hx, hx'⟩
        have := hok.mp hc x hx
        rw [this] at hx'
        cases hx'
    | error e =>
      have he : e = .typeError := checkResultsTypes_error results e hc
      subst he
      exact ⟨fun _ => herr.mp hc, fun _ => rfl⟩
  · intro h
    unfold Evaluation.init
    rw [hok.mpr h]

/-- Witness for C8 on a concrete mixed list and its all-`Results` prefix. -/
theorem evaluation_init_typecheck_witness :
    (Evaluation.init [PyObj.results ⟨[1], [2]⟩, PyObj.other 0] =
        .error .typeError ↔
      ∃ x ∈ [PyObj.results ⟨[1], [2]⟩, PyObj.other 0],
        x.isResults = false) ∧
    ((∀ x ∈ [PyObj.results ⟨[1], [2]⟩, PyObj.other 0],
        x.isResults = true) →
      Evaluation.init [PyObj.results ⟨[1], [2]⟩, PyObj.other 0] =
        .ok [PyObj.results ⟨[1], [2]⟩, PyObj.other 0]) :=
  evaluation_init_typecheck [PyObj.results ⟨[1], [2]⟩, PyObj.other 0]

/-! ### Claim C1: `compute_avg_auc_loss` -/

/-- Sum of a mapped list as a sum over positions. -/
theorem list_map_sum_range {α : Type} (l : List α) (d : α) (f : α → ℚ) :
    (l.map f).sum = ∑ i ∈ Finset.range l.length, f (l.getD i d) := by
  induction l with
  | nil => simp
  | cons a t ih =>
    rw [List.map_cons, List.sum_cons, List.length_cons,
      Finset.sum_range_succ']
    simp only [List.getD_cons_succ, List.getD_cons_zero]
    rw [ih]
    ring

/-- Claim C1: for a model evaluation with a non-empty results list, the
first component returned by `compute_avg_auc_loss` is the mean over the
folds of `1 -` the ROC-AUC score of that fold's labels and predictions. -/
theorem compute_avg_auc_loss_mean (sqrt : ℚ → ℚ) (ev : Evaluation)
    (hne : ev.results ≠ []) :
    (Evaluation.compute_avg_auc_loss sqrt ev).1 =
      (∑ i ∈ Finset.range ev.results.length,
        (1 - rocAucScore (ev.results.getD i default).y_true
          (ev.results.getD i default).y_pred)) /
        (ev.results.length : ℚ) := by
  show npMeanList (ev.results.map (fun result_per_fold =>
    1 - rocAucScore result_per_fold.y_true result_per_fold.y_pred)) = _
  unfold npMeanList
  rw [list_map_sum_range ev.results default, List.length_map]

/-- Witness for C1 on a two-fold evaluation. -/
theorem compute_avg_auc_loss_mean_witness :
    (Evaluation.compute_avg_auc_loss (fun q => q)
      ⟨[⟨[1, 0], [2, 1]⟩, ⟨[0, 1], [3, 1]⟩], [1]⟩).1 =
      (∑ i ∈ Finset.range
          (List.length [(⟨[1, 0], [2, 1]⟩ : Results), ⟨[0, 1], [3, 1]⟩]),
        (1 - rocAucScore
          (List.getD [(⟨[1, 0], [2, 1]⟩ : Results), ⟨[0, 1], [3, 1]⟩] i
            default).y_true
          (List.getD [(⟨[1, 0], [2, 1]⟩ : Results), ⟨[0, 1], [3, 1]⟩] i
            default).y_pred)) /
        ((List.length [(⟨[1, 0], [2, 1]⟩ : Results), ⟨[0, 1], [3, 1]⟩]) : ℚ) :=
  compute_avg_auc_loss_mean (fun q => q)
    ⟨[⟨[1, 0], [2, 1]⟩, ⟨[0, 1], [3, 1]⟩], [1]⟩ (by decide)

/-! ### BEDROC score

Modelled from the spec: `bedroc_score` lives in `evaluation/metrics.py`,
which is imported by `evaluation.py` but absent from the sources.  The spec
describes it as the Boltzmann-Enhanced Discrimination of ROC, "a ranking
metric with an exponential weighting scheme", computed by "a direct
application of a published closed-form formula" — the Truchon–Bayly
closed form: rank the items by predicted score, sum
`exp(-alpha * rank / N)` over the actives, normalise by the expectation
under a uniform ranking, and map affinely with the hyperbolic correction
terms so that the score spans `[0, 1]`. -/

/-- Ranking permutation `np.argsort(-y_pred)` (or `np.argsort(y_pred)` when
`decreasing` is false): the item indices sorted by predicted score. -/
def npArgsort (decreasing : Bool) (y_pred : List ℚ) : List ℕ :=
  (List.range y_pred.length).mergeSort (fun i j =>
    if decreasing then decide (y_pred.getD j 0 ≤ y_pred.getD i 0)
    else decide (y_pred.getD i 0 ≤ y_pred.getD j 0))

/-- Modelled from the spec: the exponential rank weights of the BEDROC
score.  Walking the ranked label list from 1-based rank `p + 1`, each
active (label `1`) contributes `exp(-(alpha * rank / N))`. -/
noncomputable def expRankSum (alpha : ℝ) (bigN : ℕ) :
    List ℚ → ℕ → ℝ
  | [], _ => 0
  | a :: t, p =>
    (if a = 1 then Real.exp (-(alpha * (p + 1) / bigN)) else 0) +
      expRankSum alpha bigN t (p + 1)

/-- Modelled from the spec: the BEDROC score (Truchon–Bayly closed form)
of binary labels `y_true` against predicted scores `y_pred`, with the
early-recognition parameter `alpha`. -/
noncomputable def bedrocScore (y_true y_pred : List ℚ) (decreasing : Bool)
    (alpha : ℝ) : ℝ :=
  let bigN := y_true.length
  let n := y_true.count 1
  let ranked := (npArgsort decreasing y_pred).map (fun i => y_true.getD i 0)
  let s := expRankSum alpha bigN ranked 0
  let r_a : ℝ := (n : ℝ) / (bigN : ℝ)
  let rand_sum := r_a * (1 - Real.exp (-alpha)) /
    (Real.exp (alpha / bigN) - 1)
  let fac := r_a * Real.sinh (alpha / 2) /
    (Real.cosh (alpha / 2) - Real.cosh (alpha / 2 - alpha * r_a))
  let cte := 1 / (1 - Real.exp (alpha * (1 - r_a)))
  s * fac / rand_sum + cte

/-- Evaluation.compute_bedroc_scores:

```python
scores = np.array(
    [
        [
            bedroc_score(*result_per_fold, decreasing=True, alpha=alpha)
            for alpha in self.alphas
        ]
        for result_per_fold in self.results
    ]
)
return scores
``` -/
noncomputable def Evaluation.compute_bedroc_scores (ev : Evaluation) :
    List (List ℝ) :=
  ev.results.map (fun result_per_fold =>
    ev.alphas.map (fun alpha : ℚ =>
      bedrocScore result_per_fold.y_true result_per_fold.y_pred true
        (alpha : ℝ)))

/-! ### Claim C6: `compute_bedroc_scores` -/

/-- Claim C6: `compute_bedroc_scores` returns an array of shape
`(folds, alphas)` whose `(i, j)` entry is the BEDROC score of the `i`-th
fold's labels and predictions at the `j`-th alpha, with decreasing
ordering. -/
theorem compute_bedroc_scores_shape (ev : Evaluation) :
    (Evaluation.compute_bedroc_scores ev).length = ev.results.length ∧
    (∀ row ∈ Evaluation.compute_bedroc_scores ev,
      row.length = ev.alphas.length) ∧
    ∀ i j, i < ev.results.length → j < ev.alphas.length →
      ((Evaluation.compute_bedroc_scores ev).getD i []).getD j 0 =
        bedrocScore (ev.results.getD i default).y_true
          (ev.results.getD i default).y_pred true
          ((ev.alphas.getD j 0 : ℚ) : ℝ) := by
  refine ⟨by simp [Evaluation.compute_bedroc_scores], ?_, ?_⟩
  · intro row hrow
    obtain ⟨r, _, hr⟩ := List.mem_map.mp hrow
    rw [← hr, List.length_map]
  · intro i j hi hj
    have hi' : i < ev.results.length := hi
    have himap : i < (Evaluation.compute_bedroc_scores ev).length := by
      simpa [Evaluation.compute_bedroc_scores] using hi'
    unfold Evaluation.compute_bedroc_scores at himap ⊢
    rw [List.getD_eq_getElem _ _ himap, List.getElem_map,
      List.getD_eq_getElem _ _ hi']
    have hjmap : j < ((ev.alphas.map (fun alpha : ℚ =>
        bedrocScore ev.results[i].y_true ev.results[i].y_pred true
          (alpha : ℝ)))).length := by
      simpa using hj
    rw [List.getD_eq_getElem _ _ hjmap, List.getElem_map,
      List.getD_eq_getElem _ _ hj]

/-- Witness for C6 on a one-fold, one-alpha evaluation. -/
theorem compute_bedroc_scores_shape_witness :
    (Evaluation.compute_bedroc_scores ⟨[⟨[1, 0], [2, 1]⟩], [5]⟩).length =
      List.length [(⟨[1, 0], [2, 1]⟩ : Results)] ∧
    (∀ row ∈ Evaluation.compute_bedroc_scores ⟨[⟨[1, 0], [2, 1]⟩], [5]⟩,
      row.length = List.length [(5 : ℚ)]) ∧
    ∀ i j, i < List.length [(⟨[1, 0], [2, 1]⟩ : Results)] →
      j < List.length [(5 : ℚ)] →
      ((Evaluation.compute_bedroc_scores
        ⟨[⟨[1, 0], [2, 1]⟩], [5]⟩).getD i []).getD j 0 =
        bedrocScore
          (List.getD [(⟨[1, 0], [2, 1]⟩ : Results)] i default).y_true
          (List.getD [(⟨[1, 0], [2, 1]⟩ : Results)] i default).y_pred true
          ((List.getD [(5 : ℚ)] j 0 : ℚ) : ℝ) :=
  compute_bedroc_scores_shape ⟨[⟨[1, 0], [2, 1]⟩], [5]⟩

/-! ### Bounding the BEDROC score (claim C3)

The exponential rank weights are rewritten as powers of
`x = exp(-(alpha / N))`, bounded between the geometric sums obtained when
the actives fill the first (best case) or last (worst case) ranks, and the
closed form is shown to be the affine map sending those two extremes to `1`
and `0`. -/

/-- Rank weights of `expRankSum` as powers of the per-rank decay `x`. -/
noncomputable def powRankSum (x : ℝ) : List ℚ → ℕ → ℝ
  | [], _ => 0
  | a :: t, p =>
    (if a = 1 then x ^ (p + 1) else 0) + powRankSum x t (p + 1)

/-- Geometric block: the sum of `x ^ (p + 1 + i)` for `i < c`, i.e. the
rank weights of `c` consecutive actives starting at 1-based rank
`p + 1`. -/
noncomputable def geomRankSum (x : ℝ) (p c : ℕ) : ℝ :=
  ∑ i ∈ Finset.range c, x ^ (p + 1 + i)

/-- The exponential rank weights are the powers of
`x = exp(-(alpha / N))`. -/
theorem expRankSum_eq_powRankSum (alpha : ℝ) (bigN : ℕ) (l : List ℚ)
    (p : ℕ) :
    expRankSum alpha bigN l p =
      powRankSum (Real.exp (-(alpha / bigN))) l p := by
  induction l generalizing p with
  | nil => rfl
  | cons a t ih =>
    show (if a = 1 then Real.exp (-(alpha * (p + 1) / bigN)) else 0) + _ =
      (if a = 1 then Real.exp (-(alpha / bigN)) ^ (p + 1) else 0) + _
    rw [ih]
    congr 1
    by_cases h : a = 1
    · rw [if_pos h, if_pos h, ← Real.exp_nat_mul]
      congr 1
      push_cast
      ring
    · rw [if_neg h, if_neg h]

/-- Peeling the first term of a geometric block. -/
theorem geomRankSum_succ (x : ℝ) (p c : ℕ) :
    geomRankSum x p (c + 1) = x ^ (p + 1) + geomRankSum x (p + 1) c := by
  unfold geomRankSum
  rw [Finset.sum_range_succ']
  have h0 : p + 1 + 0 = p + 1 := by omega
  rw [h0]
  rw [add_comm]
  congr 1
  apply Finset.sum_congr rfl
  intro i _
  congr 1
  omega

/-- Monotonicity of a geometric block in its starting rank (for a decay
in `[0, 1]`). -/
theorem geomRankSum_mono_start (x : ℝ) (hx0 : 0 ≤ x) (hx1 : x ≤ 1)
    (p q c : ℕ) (hpq : p ≤ q) :
    geomRankSum x q c ≤ geomRankSum x p c := by
  unfold geomRankSum
  apply Finset.sum_le_sum
  intro i _
  exact pow_le_pow_of_le_one hx0 hx1 (by omega)

/-- Upper bound: the rank weights of the actives of `l` (read from 1-based
rank `p + 1`) are at most those of the best ranking, where the actives
occupy the first ranks. -/
theorem powRankSum_le_best (x : ℝ) (hx0 : 0 ≤ x) (hx1 : x ≤ 1) :
    ∀ (l : List ℚ) (p : ℕ),
      powRankSum x l p ≤ geomRankSum x p (l.count 1) := by
  intro l
  induction l with
  | nil =>
    intro p
    simp [powRankSum, geomRankSum]
  | cons a t ih =>
    intro p
    by_cases h : a = 1
    · have hcnt : (a :: t).count 1 = t.count 1 + 1 := by
        rw [List.count_cons, if_pos (by exact beq_iff_eq.mpr h)]
      rw [hcnt, geomRankSum_succ]
      show (if a = 1 then x ^ (p + 1) else 0) + powRankSum x t (p + 1) ≤ _
      rw [if_pos h]
      exact add_le_add_left (ih (p + 1)) _
    · have hcnt : (a :: t).count 1 = t.count 1 := by
        rw [List.count_cons, if_neg (by simpa using h)]
        omega
      rw [hcnt]
      show (if a = 1 then x ^ (p + 1) else 0) + powRankSum x t (p + 1) ≤ _
      rw [if_neg h, zero_add]
      exact le_trans (ih (p + 1))
        (geomRankSum_mono_start x hx0 hx1 p (p + 1) _ (by omega))

/-- Lower bound: the rank weights of the actives of `l` are at least those
of the worst ranking, where the actives occupy the last ranks. -/
theorem powRankSum_ge_worst (x : ℝ) (hx0 : 0 ≤ x) (hx1 : x ≤ 1) :
    ∀ (l : List ℚ) (p : ℕ),
      geomRankSum x (p + (l.length - l.count 1)) (l.count 1) ≤
        powRankSum x l p := by
  intro l
  induction l with
  | nil =>
    intro p
    simp [powRankSum, geomRankSum]
  | cons a t ih =>
    intro p
    have hct : t.count 1 ≤ t.length := List.count_le_length 1 t
    by_cases h : a = 1
    · have hcnt : (a :: t).count 1 = t.count 1 + 1 := by
        rw [List.count_cons, if_pos (by exact beq_iff_eq.mpr h)]
      rw [hcnt]
      have hlen : (a :: t).length - (t.count 1 + 1) =
          t.length - t.count 1 := by
        rw [List.length_cons]
        omega
      rw [hlen, geomRankSum_succ]
      show _ ≤ (if a = 1 then x ^ (p + 1) else 0) + powRankSum x t (p + 1)
      rw [if_pos h]
      apply add_le_add
      · exact pow_le_pow_of_le_one hx0 hx1 (by omega)
      · have := ih (p + 1)
        have harg : p + 1 + (t.length - t.count 1) =
            p + (t.length - t.count 1) + 1 := by omega
        rw [harg] at this
        exact this
    · have hcnt : (a :: t).count 1 = t.count 1 := by
        rw [List.count_cons, if_neg (by simpa using h)]
        omega
      rw [hcnt]
      have hlen : (a :: t).length - t.count 1 =
          t.length - t.count 1 + 1 := by
        rw [List.length_cons]
        omega
      rw [hlen]
      show _ ≤ (if a = 1 then x ^ (p + 1) else 0) + powRankSum x t (p + 1)
      rw [if_neg h, zero_add]
      have := ih (p + 1)
      have harg : p + 1 + (t.length - t.count 1) =
          p + (t.length - t.count 1 + 1) := by omega
      rw [harg] at this
      exact this

/-- Reading a list back by positions over `range` reproduces the list. -/
theorem map_getD_range (l : List ℚ) :
    (List.range l.length).map (fun i => l.getD i 0) = l := by
  induction l with
  | nil => rfl
  | cons a t ih =>
    rw [List.length_cons, List.range_succ_eq_map, List.map_cons,
      List.map_map]
    rw [show ((fun i => (a :: t).getD i 0) ∘ Nat.succ) =
      (fun i => t.getD i 0) by funext i; simp [List.getD_cons_succ], ih]
    rfl

/-- The ranked label list is a permutation of the label list (for equal
label/prediction lengths). -/
theorem ranked_perm (y_true y_pred : List ℚ) (decreasing : Bool)
    (hlen : y_pred.length = y_true.length) :
    ((npArgsort decreasing y_pred).map (fun i => y_true.getD i 0)).Perm
      y_true := by
  unfold npArgsort
  refine ((List.mergeSort_perm (List.range y_pred.length) _).map
    (fun i => y_true.getD i 0)).trans ?_
  rw [hlen, map_getD_range]

/-- Normalisation constant of the BEDROC score: the expected rank-weight
sum under a uniform ranking. -/
noncomputable def bedrocRandSum (N n : ℕ) (alpha : ℝ) : ℝ :=
  ((n : ℝ) / (N : ℝ)) * (1 - Real.exp (-alpha)) /
    (Real.exp (alpha / N) - 1)

/-- Hyperbolic scaling factor of the BEDROC closed form. -/
noncomputable def bedrocFac (N n : ℕ) (alpha : ℝ) : ℝ :=
  ((n : ℝ) / (N : ℝ)) * Real.sinh (alpha / 2) /
    (Real.cosh (alpha / 2) -
      Real.cosh (alpha / 2 - alpha * ((n : ℝ) / (N : ℝ))))

/-- Constant offset of the BEDROC closed form. -/
noncomputable def bedrocCte (N n : ℕ) (alpha : ℝ) : ℝ :=
  1 / (1 - Real.exp (alpha * (1 - (n : ℝ) / (N : ℝ))))

/-- Decomposition of the BEDROC score into its affine closed form in the
rank-weight sum. -/
theorem bedrocScore_eq (y_true y_pred : List ℚ) (decreasing : Bool)
    (alpha : ℝ) :
    bedrocScore y_true y_pred decreasing alpha =
      powRankSum (Real.exp (-(alpha / y_true.length)))
          ((npArgsort decreasing y_pred).map (fun i => y_true.getD i 0)) 0 *
        bedrocFac y_true.length (y_true.count 1) alpha /
        bedrocRandSum y_true.length (y_true.count 1) alpha +
        bedrocCte y_true.length (y_true.count 1) alpha := by
  unfold bedrocFac bedrocRandSum bedrocCte
  simp only [bedrocScore]
  rw [expRankSum_eq_powRankSum]

/-- Hyperbolic part of the BEDROC scaling factor, as a rational function of
the per-rank decay `x = exp(-(alpha / N))`. -/
theorem bedrocFac_closed (N n : ℕ) (alpha : ℝ) (hn : 1 ≤ n) (hnN : n < N) (ha : 0 < alpha) :
    Real.sinh (alpha / 2) /
      (Real.cosh (alpha / 2) -
        Real.cosh (alpha / 2 - alpha * ((n : ℝ) / (N : ℝ)))) =
      (1 - Real.exp (-(alpha / N)) ^ N) /
        ((1 - Real.exp (-(alpha / N)) ^ n) *
          (1 - Real.exp (-(alpha / N)) ^ (N - n))) := by
  have hN0 : (0 : ℝ) < N := by
    have : 0 < N := by omega
    exact_mod_cast this
  have hn0 : (0 : ℝ) < n := by
    have : 0 < n := by omega
    exact_mod_cast this
  set x := Real.exp (-(alpha / N)) with hxdef
  set E := Real.exp (alpha / 2) with hEdef
  set r : ℝ := (n : ℝ) / (N : ℝ) with hrdef
  have hx0 : 0 < x := Real.exp_pos _
  have hx1 : x < 1 := by
    rw [hxdef]
    apply Real.exp_lt_one_iff.mpr
    have : 0 < alpha / N := div_pos ha hN0
    linarith
  have hE0 : 0 < E := Real.exp_pos _
  have hr0 : 0 < r := div_pos hn0 hN0
  have hr1 : r < 1 := by
    rw [hrdef, div_lt_one hN0]
    exact_mod_cast hnN
  -- powers of x as exponentials
  have hxn : Real.exp (-(alpha * r)) = x ^ n := by
    rw [hxdef, ← Real.exp_nat_mul]
    congr 1
    rw [hrdef]
    ring
  have hXN : x ^ N = (E * E)⁻¹ := by
    rw [hxdef, hEdef, ← Real.exp_nat_mul, ← Real.exp_add, ← Real.exp_neg]
    congr 1
    field_simp
    ring
  have hab : x ^ n * x ^ (N - n) = x ^ N := by
    rw [← pow_add]
    congr 1
    omega
  have hxnne : x ^ n ≠ 0 := (pow_pos hx0 n).ne'
  have hb : x ^ (N - n) = (E * E)⁻¹ * (x ^ n)⁻¹ := by
    rw [← hXN, ← hab, mul_comm (x ^ n) (x ^ (N - n)), mul_assoc,
      mul_inv_cancel₀ hxnne, mul_one]
  -- cosh difference is positive
  have hcosh : 0 < Real.cosh (alpha / 2) -
      Real.cosh (alpha / 2 - alpha * r) := by
    rw [sub_pos]
    apply Real.cosh_lt_cosh.mpr
    rw [abs_of_pos (by positivity : (0 : ℝ) < alpha / 2), abs_lt]
    constructor
    · have : alpha * r < alpha * 1 := by
        exact mul_lt_mul_of_pos_left hr1 ha
      linarith
    · have : 0 < alpha * r := mul_pos ha hr0
      linarith
  -- exponential subterms
  have h1 : Real.exp (alpha / 2 - alpha * r) = E * x ^ n := by
    rw [Real.exp_sub, hEdef]
    rw [show Real.exp (alpha * r) = (x ^ n)⁻¹ by
      rw [← hxn, ← Real.exp_neg, neg_neg]]
    rw [div_eq_mul_inv, inv_inv]
  have h2 : Real.exp (-(alpha / 2 - alpha * r)) = (E * x ^ n)⁻¹ := by
    rw [Real.exp_neg, h1]
  have h3 : Real.exp (-(alpha / 2)) = E⁻¹ := by
    rw [Real.exp_neg, hEdef]
  rw [Real.cosh_eq, Real.cosh_eq, h1, h2, h3] at hcosh
  rw [Real.sinh_eq, Real.cosh_eq, Real.cosh_eq, h1, h2, h3]
  rw [hXN, hb]
  have hxn1 : x ^ n < 1 := pow_lt_one₀ hx0.le hx1 (by omega)
  have hbne : (1 - x ^ n) * (1 - (E * E)⁻¹ * (x ^ n)⁻¹) ≠ 0 := by
    apply mul_ne_zero
    · intro h
      have : x ^ n = 1 := by linarith
      rw [this] at hxn1
      linarith
    · intro h
      have hb1 : x ^ (N - n) < 1 := pow_lt_one₀ hx0.le hx1 (by omega)
      rw [hb] at hb1
      have : (E * E)⁻¹ * (x ^ n)⁻¹ = 1 := by linarith
      rw [this] at hb1
      linarith
  rw [div_eq_div_iff hcosh.ne' hbne]
  field_simp
  ring

set_option maxHeartbeats 2000000 in
/-- Endpoint values of the affine BEDROC closed form: the scaling
coefficient is positive, the best ranking (actives in the first `n` ranks)
scores exactly `1`, and the worst ranking (actives in the last `n` ranks)
scores exactly `0`. -/
theorem bedroc_endpoints (N n : ℕ) (alpha : ℝ) (hn : 1 ≤ n) (hnN : n < N)
    (ha : 0 < alpha) :
    0 < bedrocFac N n alpha / bedrocRandSum N n alpha ∧
    geomRankSum (Real.exp (-(alpha / N))) 0 n * bedrocFac N n alpha /
      bedrocRandSum N n alpha + bedrocCte N n alpha = 1 ∧
    geomRankSum (Real.exp (-(alpha / N))) (N - n) n * bedrocFac N n alpha /
      bedrocRandSum N n alpha + bedrocCte N n alpha = 0 := by
  have hN0 : (0 : ℝ) < N := by
    have : 0 < N := by omega
    exact_mod_cast this
  have hn0 : (0 : ℝ) < n := by
    have : 0 < n := by omega
    exact_mod_cast this
  set x := Real.exp (-(alpha / N)) with hxdef
  set r : ℝ := (n : ℝ) / (N : ℝ) with hrdef
  have hx0 : 0 < x := Real.exp_pos _
  have hx1 : x < 1 := by
    rw [hxdef]
    apply Real.exp_lt_one_iff.mpr
    have : 0 < alpha / N := div_pos ha hN0
    linarith
  have hxne1 : x ≠ 1 := ne_of_lt hx1
  have hr0 : 0 < r := div_pos hn0 hN0
  have hr1 : r < 1 := by
    rw [hrdef, div_lt_one hN0]
    exact_mod_cast hnN
  have hxn1 : x ^ n < 1 := pow_lt_one₀ hx0.le hx1 (by omega)
  have hxb1 : x ^ (N - n) < 1 := pow_lt_one₀ hx0.le hx1 (by omega)
  have hxn0 : 0 < x ^ n := pow_pos hx0 n
  have hxb0 : 0 < x ^ (N - n) := pow_pos hx0 (N - n)
  have hXN1 : x ^ N < 1 := pow_lt_one₀ hx0.le hx1 (by omega)
  -- exponential translations
  have hEA : Real.exp (-alpha) = x ^ N := by
    rw [hxdef, ← Real.exp_nat_mul]
    congr 1
    field_simp
    ring
  have hinv : Real.exp (alpha / N) = x⁻¹ := by
    rw [hxdef, Real.exp_neg, inv_inv]
  have hcte : Real.exp (alpha * (1 - r)) = (x ^ (N - n))⁻¹ := by
    rw [hxdef, ← Real.exp_nat_mul, ← Real.exp_neg]
    congr 1
    rw [hrdef, Nat.cast_sub (by omega)]
    field_simp
    ring
  -- positivity of the normalisation pieces
  have hcosh : 0 < Real.cosh (alpha / 2) -
      Real.cosh (alpha / 2 - alpha * r) := by
    rw [sub_pos]
    apply Real.cosh_lt_cosh.mpr
    rw [abs_of_pos (by positivity : (0 : ℝ) < alpha / 2), abs_lt]
    constructor
    · have : alpha * r < alpha * 1 := mul_lt_mul_of_pos_left hr1 ha
      linarith
    · have : 0 < alpha * r := mul_pos ha hr0
      linarith
  have hsinh : 0 < Real.sinh (alpha / 2) :=
    Real.sinh_pos_iff.mpr (by positivity)
  have hrand : 0 < bedrocRandSum N n alpha := by
    unfold bedrocRandSum
    apply div_pos
    · apply mul_pos hr0
      rw [sub_pos, hEA]
      exact hXN1
    · rw [sub_pos]
      exact Real.one_lt_exp_iff.mpr (by positivity)
  have hfacpos : 0 < bedrocFac N n alpha :=
    div_pos (mul_pos hr0 hsinh) hcosh
  -- closed forms
  have hfac2 : bedrocFac N n alpha =
      r * ((1 - x ^ N) / ((1 - x ^ n) * (1 - x ^ (N - n)))) := by
    unfold bedrocFac
    rw [mul_div_assoc, bedrocFac_closed N n alpha hn hnN ha]
  have hrand2 : bedrocRandSum N n alpha =
      r * (1 - x ^ N) / (x⁻¹ - 1) := by
    unfold bedrocRandSum
    rw [hEA, hinv]
  have hcte2 : bedrocCte N n alpha = 1 / (1 - (x ^ (N - n))⁻¹) := by
    unfold bedrocCte
    rw [hcte]
  have hgeom0 : geomRankSum x 0 n = x * ((x ^ n - 1) / (x - 1)) := by
    unfold geomRankSum
    rw [Finset.sum_congr rfl (fun i _ => by
      rw [show 0 + 1 + i = 1 + i by omega, pow_add, pow_one] :
      ∀ i ∈ Finset.range n, x ^ (0 + 1 + i) = x * x ^ i),
      ← Finset.mul_sum, geom_sum_eq hxne1 n]
  have hgeomb : geomRankSum x (N - n) n =
      x ^ (N - n) * (x * ((x ^ n - 1) / (x - 1))) := by
    unfold geomRankSum
    rw [Finset.sum_congr rfl (fun i _ => by
      rw [show N - n + 1 + i = (N - n) + (1 + i) by omega, pow_add,
        pow_add, pow_one] :
      ∀ i ∈ Finset.range n,
        x ^ (N - n + 1 + i) = x ^ (N - n) * (x * x ^ i)),
      ← Finset.mul_sum, ← Finset.mul_sum, geom_sum_eq hxne1 n]
  have hne1 : (1 : ℝ) - x ^ n ≠ 0 := by
    intro h
    have h' : x ^ n = 1 := by linarith
    rw [h'] at hxn1
    linarith
  have hne2 : (1 : ℝ) - x ^ (N - n) ≠ 0 := by
    intro h
    have h' : x ^ (N - n) = 1 := by linarith
    rw [h'] at hxb1
    linarith
  have hne3 : (1 : ℝ) - x ^ N ≠ 0 := by
    intro h
    have h' : x ^ N = 1 := by linarith
    rw [h'] at hXN1
    linarith
  have hxinv : x * x⁻¹ = 1 := mul_inv_cancel₀ hx0.ne'
  have hne4 : x⁻¹ - 1 ≠ 0 := by
    have h4 : 1 < x⁻¹ := by nlinarith [hxinv]
    linarith
  have hbinv : x ^ (N - n) * (x ^ (N - n))⁻¹ = 1 := mul_inv_cancel₀ hxb0.ne'
  have hne5 : (1 : ℝ) - (x ^ (N - n))⁻¹ ≠ 0 := by
    have h5 : 1 < (x ^ (N - n))⁻¹ := by nlinarith [hbinv]
    linarith
  have hrne : r ≠ 0 := hr0.ne'
  have hxne : x ≠ 0 := hx0.ne'
  have hC : bedrocFac N n alpha / bedrocRandSum N n alpha =
      (x⁻¹ - 1) / ((1 - x ^ n) * (1 - x ^ (N - n))) := by
    rw [hfac2, hrand2]
    field_simp
    ring
  have hne6 : x - 1 ≠ 0 := by
    intro h
    have : x = 1 := by linarith
    exact hxne1 this
  have hsc1 : geomRankSum x 0 n *
      (bedrocFac N n alpha / bedrocRandSum N n alpha) =
      1 / (1 - x ^ (N - n)) := by
    rw [hgeom0, hC]
    field_simp
    ring
  have hsc0 : geomRankSum x (N - n) n *
      (bedrocFac N n alpha / bedrocRandSum N n alpha) =
      x ^ (N - n) / (1 - x ^ (N - n)) := by
    rw [hgeomb, hC]
    field_simp
    ring
  have hne7 : x ^ (N - n) - 1 ≠ 0 := by
    intro h
    apply hne2
    linarith
  have hone : geomRankSum x 0 n * bedrocFac N n alpha /
      bedrocRandSum N n alpha + bedrocCte N n alpha = 1 := by
    rw [mul_div_assoc, hsc1, hcte2]
    field_simp
    ring
  have hzero : geomRankSum x (N - n) n * bedrocFac N n alpha /
      bedrocRandSum N n alpha + bedrocCte N n alpha = 0 := by
    rw [mul_div_assoc, hsc0, hcte2]
    field_simp
    ring
  exact ⟨div_pos hfacpos hrand, hone, hzero⟩

/-- Claim C3: for a binary label vector with at least one positive and one
negative, a prediction vector of the same length and a positive `alpha`,
the BEDROC score lies between `0` and `1`. -/
theorem bedroc_score_bounded (y_true y_pred : List ℚ) (decreasing : Bool)
    (alpha : ℝ) (hlen : y_pred.length = y_true.length)
    (hbin : ∀ v ∈ y_true, v = 0 ∨ v = 1)
    (hpos : (1 : ℚ) ∈ y_true) (hneg : (0 : ℚ) ∈ y_true)
    (halpha : 0 < alpha) :
    0 ≤ bedrocScore y_true y_pred decreasing alpha ∧
      bedrocScore y_true y_pred decreasing alpha ≤ 1 := by
  have hn1 : 1 ≤ y_true.count 1 := List.count_pos_iff.mpr hpos
  have hnN : y_true.count 1 < y_true.length := by
    have hle : y_true.count 1 ≤ y_true.length := List.count_le_length 1 y_true
    have hne : y_true.count 1 ≠ y_true.length := by
      intro h
      have hall := List.count_eq_length.mp h
      have := hall 0 hneg
      norm_num at this
    omega
  have hN0 : (0 : ℝ) < (y_true.length : ℝ) := by
    have : 0 < y_true.length := by omega
    exact_mod_cast this
  have hx0 : 0 < Real.exp (-(alpha / y_true.length)) := Real.exp_pos _
  have hx1 : Real.exp (-(alpha / y_true.length)) < 1 := by
    apply Real.exp_lt_one_iff.mpr
    have : 0 < alpha / y_true.length := div_pos halpha hN0
    linarith
  have hperm := ranked_perm y_true y_pred decreasing hlen
  have hcnt : ((npArgsort decreasing y_pred).map
      (fun i => y_true.getD i 0)).count 1 = y_true.count 1 :=
    hperm.count_eq 1
  have hlenr : ((npArgsort decreasing y_pred).map
      (fun i => y_true.getD i 0)).length = y_true.length :=
    hperm.length_eq
  obtain ⟨hC, h1, h0⟩ := bedroc_endpoints y_true.length (y_true.count 1)
    alpha hn1 hnN halpha
  have hsu : powRankSum (Real.exp (-(alpha / y_true.length)))
      ((npArgsort decreasing y_pred).map (fun i => y_true.getD i 0)) 0 ≤
      geomRankSum (Real.exp (-(alpha / y_true.length))) 0
        (y_true.count 1) := by
    have := powRankSum_le_best (Real.exp (-(alpha / y_true.length)))
      hx0.le hx1.le
      ((npArgsort decreasing y_pred).map (fun i => y_true.getD i 0)) 0
    rwa [hcnt] at this
  have hsl : geomRankSum (Real.exp (-(alpha / y_true.length)))
      (y_true.length - y_true.count 1) (y_true.count 1) ≤
      powRankSum (Real.exp (-(alpha / y_true.length)))
        ((npArgsort decreasing y_pred).map (fun i => y_true.getD i 0)) 0 := by
    have := powRankSum_ge_worst (Real.exp (-(alpha / y_true.length)))
      hx0.le hx1.le
      ((npArgsort decreasing y_pred).map (fun i => y_true.getD i 0)) 0
    rw [hcnt, hlenr, Nat.zero_add] at this
    exact this
  rw [bedrocScore_eq, mul_div_assoc]
  rw [mul_div_assoc] at h1 h0
  constructor
  · have step := mul_le_mul_of_nonneg_right hsl hC.le
    linarith
  · have step := mul_le_mul_of_nonneg_right hsu hC.le
    linarith

/-- Witness for C3 on a concrete two-item ranking. -/
theorem bedroc_score_bounded_witness :
    0 ≤ bedrocScore [1, 0] [2, 1] true 1 ∧
      bedrocScore [1, 0] [2, 1] true 1 ≤ 1 :=
  bedroc_score_bounded [1, 0] [2, 1] true 1 (by decide) (by decide)
    (by decide) (by decide) one_pos
